import Mathlib

/- Verification of the microblog repository: a Flask application with one
route handler (app/routes.py), a configuration class (config.py), and one
Alembic migration script
(migrations/versions/ece9164d0908_new_fields_in_user_model.py).

The Python source is shallowly embedded: the route handler becomes a pure
Lean function on the (trivial) application state, the Alembic schema
operations become functions on an explicit schema value returning an
Except (schema-change failures are database errors), and the secret-key
resolution of the configuration becomes a function of the environment
lookup and the random bytes drawn by secrets.token_hex. -/

namespace Microblog

/- Route handler, from app/routes.py.  The Python source binds one view
function to the two paths "/" and "/index"; the view builds the display
user mapping and returns the fixed HTML page by string concatenation:

    @app.route("/")
    @app.route("/index")
    def index():
        user = {"username": "José A."}
        return HTML prefix + user["username"] + HTML suffix
-/

/-- The ad-hoc display-user mapping with the single key "username" and
value "José A.", built inside the handler, embedded as an association
list. -/
def userMapping : List (String × String) := [("username", "José A.")]

/-- The body of the index view: the fixed HTML template concatenated
with the username looked up in the user mapping, exactly as the Python
string concatenation builds it. -/
def index : String :=
  "\n<html>\n    <head>\n        <title>Home Page - Microblog</title>\n    </head>\n    <body>\n        <h1>Hello, "
    ++ (((userMapping.lookup "username").getD "") ++
  "!</h1>\n    </body>\n</html>")

/-- The route table of the application: both route decorators bind the
same view function. -/
def routeTable : List (String × (Unit → String)) :=
  [("/", fun _ => index), ("/index", fun _ => index)]

/-- Flask dispatch for a GET request: look the path up in the route
table; a plain string returned from a view function becomes an HTTP
200 response with that string as body. -/
def dispatch (path : String) : Option (Nat × String) :=
  (routeTable.lookup path).map (fun h => (200, h ()))

/-- Substring containment: sub occurs contiguously in s. -/
def ContainsSubstr (s sub : String) : Prop :=
  ∃ pre post, s = pre ++ sub ++ post

/- Configuration, from config.py:

    class Config(object):
        SECRET_KEY = os.environ.get("SECRET_KEY") or secrets.token_hex(32)

The environment lookup yields None when the variable is absent; the
Python or-operator falls through to the right operand exactly when the
left operand is falsy (None or the empty string).  secrets.token_hex(32)
hex-encodes 32 fresh random bytes in lowercase; the random draw is made
explicit as a list of byte values. -/

/-- Lowercase hexadecimal digit for a value below 16, as produced by
the hex encoding in secrets.token_hex. -/
def hexDigitChar (n : Nat) : Char :=
  if n < 10 then Char.ofNat (48 + n) else Char.ofNat (87 + n)

/-- Model of secrets.token_hex applied to the drawn bytes: each byte
becomes two lowercase hex digits, high nibble first. -/
def tokenHex (bytes : List Nat) : String :=
  ⟨bytes.flatMap (fun b => [hexDigitChar (b / 16), hexDigitChar (b % 16)])⟩

/-- Resolution of SECRET_KEY in class Config: the environment value if
present and truthy, otherwise the hex encoding of the fresh random
bytes. -/
def configSecretKey (env : Option String) (randomBytes : List Nat) : String :=
  match env with
  | some v => if v = "" then tokenHex randomBytes else v
  | none => tokenHex randomBytes

/-- The settings object built once at class-body evaluation of Config
in config.py. -/
structure Config where
  secretKey : String
deriving DecidableEq, Repr

/-- Constructing the settings object: SECRET_KEY is resolved once,
here. -/
def mkConfig (env : Option String) (randomBytes : List Nat) : Config :=
  ⟨configSecretKey env randomBytes⟩

/-- The application object, from app/__init__.py: the call
app.config.from_object(Config) copies the settings into the app. -/
structure App where
  config : Config
deriving DecidableEq, Repr

/-- Building the application object and loading its configuration. -/
def mkApp (cfg : Config) : App := ⟨cfg⟩

/-- Handling one request: dispatch the path against the route table.
The handler touches no application state, so the state is returned
unchanged. -/
def handle (a : App) (path : String) : Option (Nat × String) × App :=
  (dispatch path, a)

/-- Run the application over a whole sequence of incoming request
paths. -/
def run (a : App) (paths : List String) : App :=
  paths.foldl (fun st p => (handle st p).2) a

/- Migration script, from
migrations/versions/ece9164d0908_new_fields_in_user_model.py:

    def upgrade():
        op.add_column("user", sa.Column("about_me", sa.String(length=140), nullable=True))
        op.add_column("user", sa.Column("last_seen", sa.DateTime(), nullable=True))

    def downgrade():
        op.drop_column("user", "last_seen")
        op.drop_column("user", "about_me")

The database schema is embedded as an ordered list of tables, each an
ordered list of columns.  The Alembic primitives add_column and
drop_column issue DDL against the configured database: they fail with a
database error when the target table is missing, when an added column
name already exists, or when a dropped column is absent. -/

/-- A column type as used by the migration: sa.String with a maximum
length, or sa.DateTime. -/
inductive ColType where
  | string (maxLength : Nat)
  | datetime
deriving DecidableEq, Repr

/-- A schema column: name, type and nullability. -/
structure Column where
  name : String
  ty : ColType
  nullable : Bool
deriving DecidableEq, Repr

/-- A database table: name and ordered column list. -/
structure Table where
  name : String
  cols : List Column
deriving DecidableEq, Repr

/-- A database schema: the ordered list of its tables. -/
abbrev Schema := List Table

/-- Alembic op.add_column: append the column to the column list of the
named table; a missing table or a duplicate column name is a database
error. -/
def addColumn (db : Schema) (tbl : String) (c : Column) : Except String Schema :=
  if db.all (fun t => t.name != tbl) then
    .error ("no such table: " ++ tbl)
  else if db.any (fun t => t.name == tbl && t.cols.any (fun c2 => c2.name == c.name)) then
    .error ("duplicate column name: " ++ c.name)
  else
    .ok (db.map fun t => if t.name = tbl then { t with cols := t.cols ++ [c] } else t)

/-- Alembic op.drop_column: remove the named column from the named
table; a missing table or a missing column is a database error. -/
def dropColumn (db : Schema) (tbl : String) (cname : String) : Except String Schema :=
  if db.all (fun t => t.name != tbl) then
    .error ("no such table: " ++ tbl)
  else if db.any (fun t => t.name == tbl && t.cols.all (fun c2 => c2.name != cname)) then
    .error ("no such column: " ++ cname)
  else
    .ok (db.map fun t =>
      if t.name = tbl then { t with cols := t.cols.filter (fun c2 => c2.name != cname) } else t)

/-- The first column added by upgrade: name about_me, type
sa.String(length=140), nullable. -/
def aboutMeColumn : Column := ⟨"about_me", .string 140, true⟩

/-- The second column added by upgrade: name last_seen, type
sa.DateTime(), nullable. -/
def lastSeenColumn : Column := ⟨"last_seen", .datetime, true⟩

/-- One schema operation of the migration script. -/
inductive MigOp where
  | addCol (tbl : String) (c : Column)
  | dropCol (tbl : String) (cname : String)
deriving DecidableEq, Repr

/-- The two add_column calls of upgrade, in source order. -/
def upgradeOps : List MigOp :=
  [.addCol "user" aboutMeColumn, .addCol "user" lastSeenColumn]

/-- The two drop_column calls of downgrade, in source order. -/
def downgradeOps : List MigOp :=
  [.dropCol "user" "last_seen", .dropCol "user" "about_me"]

/-- Apply one schema operation. -/
def runOp (db : Schema) : MigOp → Except String Schema
  | .addCol tbl c => addColumn db tbl c
  | .dropCol tbl cname => dropColumn db tbl cname

/-- Apply a list of schema operations in order, stopping at the first
database error (Alembic propagates it; the script catches nothing). -/
def runOps (db : Schema) : List MigOp → Except String Schema
  | [] => .ok db
  | op :: rest => (runOp db op).bind (fun db2 => runOps db2 rest)

/-- The upgrade operation of the migration. -/
def upgrade (db : Schema) : Except String Schema := runOps db upgradeOps

/-- The downgrade operation of the migration. -/
def downgrade (db : Schema) : Except String Schema := runOps db downgradeOps

/-- Revision identifier declared by the script. -/
def revision : String := "ece9164d0908"

/-- The declared predecessor revision of the script. -/
def down_revision : String := "41cf27f62f9a"

/-- The per-table update performed by a successful add_column. -/
def addColTable (tbl : String) (c : Column) (t : Table) : Table :=
  if t.name = tbl then { t with cols := t.cols ++ [c] } else t

/-- The per-table update performed by a successful drop_column. -/
def dropColTable (tbl cname : String) (t : Table) : Table :=
  if t.name = tbl then { t with cols := t.cols.filter (fun c2 => c2.name != cname) } else t

/-- The forward operation turned into the drop of the column it adds. -/
def dropOf : MigOp → MigOp
  | .addCol tbl c => .dropCol tbl c.name
  | op => op

/-- Precondition of the migration: every table named user lacks both of
the columns the migration adds. -/
def UserLacksNewCols (db : Schema) : Prop :=
  ∀ t ∈ db, t.name = "user" → ∀ c ∈ t.cols, c.name ≠ "about_me" ∧ c.name ≠ "last_seen"

/-- The combined per-table effect of a successful upgrade: tables named
user gain the two new columns at the end, all other tables are kept. -/
def addBoth (t : Table) : Table :=
  if t.name = "user" then { t with cols := t.cols ++ [aboutMeColumn, lastSeenColumn] } else t

/-- Projection hiding exactly the two migrated columns of tables named
user; used to state that a migration touches nothing else. -/
def frameView (t : Table) : Table :=
  if t.name = "user" then
    { t with cols := t.cols.filter (fun c => c.name != "about_me" && c.name != "last_seen") }
  else t

/-- Recogniser for the characters a lowercase hex encoding can emit. -/
def isLowerHexDigit (c : Char) : Bool :=
  "0123456789abcdef".data.contains c

/-- Numeric value of a lowercase hex digit. -/
def hexVal (c : Char) : Nat :=
  if 97 ≤ c.toNat then c.toNat - 87 else c.toNat - 48

/-- Decoder inverting the byte-to-hex-pair encoding of tokenHex. -/
def hexDecode : List Char → List Nat
  | c1 :: c2 :: rest => (hexVal c1 * 16 + hexVal c2) :: hexDecode rest
  | _ => []

/-- Shape of the random draw made by secrets.token_hex(32): exactly 32
byte values. -/
def ValidRandomBytes (bs : List Nat) : Prop :=
  bs.length = 32 ∧ ∀ b ∈ bs, b < 256

/-- A concrete schema with one user table, used to instantiate the
migration theorems. -/
def demoDb : Schema :=
  [⟨"user", [⟨"username", ColType.string 64, false⟩]⟩]

/-- The concrete schema produced by running upgrade on demoDb. -/
def demoUpgraded : Schema :=
  [⟨"user", [⟨"username", ColType.string 64, false⟩, aboutMeColumn, lastSeenColumn]⟩]

end Microblog

namespace Microblog

theorem addColTable_name (tbl : String) (c : Column) (t : Table) :
    (addColTable tbl c t).name = t.name := by
  unfold addColTable; split <;> rfl

theorem dropColTable_name (tbl cname : String) (t : Table) :
    (dropColTable tbl cname t).name = t.name := by
  unfold dropColTable; split <;> rfl

theorem addBoth_name (t : Table) : (addBoth t).name = t.name := by
  unfold addBoth; split <;> rfl

theorem addColumn_ok (db : Schema) (tbl : String) (c : Column)
    (h1 : ∃ t ∈ db, t.name = tbl)
    (h2 : ∀ t ∈ db, t.name = tbl → ∀ c2 ∈ t.cols, c2.name ≠ c.name) :
    addColumn db tbl c = .ok (db.map (addColTable tbl c)) := by
  obtain ⟨t0, ht0, hn0⟩ := h1
  have hA : ¬(db.all (fun t => t.name != tbl) = true) := by
    simp only [List.all_eq_true, bne_iff_ne, ne_eq]
    push_neg
    exact ⟨t0, ht0, hn0⟩
  have hB : ¬(db.any (fun t => t.name == tbl && t.cols.any (fun c2 => c2.name == c.name)) = true) := by
    intro hcon
    simp only [List.any_eq_true, Bool.and_eq_true, beq_iff_eq] at hcon
    obtain ⟨t, ht, htn, c2, hc2, hcn⟩ := hcon
    exact h2 t ht htn c2 hc2 hcn
  unfold addColumn
  rw [if_neg hA, if_neg hB]
  rfl

theorem dropColumn_ok (db : Schema) (tbl cname : String)
    (h1 : ∃ t ∈ db, t.name = tbl)
    (h2 : ∀ t ∈ db, t.name = tbl → ∃ c ∈ t.cols, c.name = cname) :
    dropColumn db tbl cname = .ok (db.map (dropColTable tbl cname)) := by
  obtain ⟨t0, ht0, hn0⟩ := h1
  have hA : ¬(db.all (fun t => t.name != tbl) = true) := by
    simp only [List.all_eq_true, bne_iff_ne, ne_eq]
    push_neg
    exact ⟨t0, ht0, hn0⟩
  have hB : ¬(db.any (fun t => t.name == tbl && t.cols.all (fun c2 => c2.name != cname)) = true) := by
    intro hcon
    simp only [List.any_eq_true, Bool.and_eq_true, beq_iff_eq, List.all_eq_true,
      bne_iff_ne, ne_eq] at hcon
    obtain ⟨t, ht, htn, hall⟩ := hcon
    obtain ⟨c, hc, hcn⟩ := h2 t ht htn
    exact hall c hc hcn
  unfold dropColumn
  rw [if_neg hA, if_neg hB]
  rfl

theorem addColumn_ok_inv {db db' : Schema} {tbl : String} {c : Column}
    (h : addColumn db tbl c = .ok db') :
    db' = db.map (addColTable tbl c) ∧ ∃ t ∈ db, t.name = tbl := by
  unfold addColumn at h
  split at h
  · exact absurd h (by simp)
  · next hA =>
    split at h
    · exact absurd h (by simp)
    · refine ⟨(Except.ok.inj h).symm, ?_⟩
      simp only [Bool.not_eq_true, List.all_eq_false, bne_iff_ne, ne_eq, not_not] at hA
      exact hA

theorem dropColumn_ok_inv {db db' : Schema} {tbl cname : String}
    (h : dropColumn db tbl cname = .ok db') :
    db' = db.map (dropColTable tbl cname) ∧ ∃ t ∈ db, t.name = tbl := by
  unfold dropColumn at h
  split at h
  · exact absurd h (by simp)
  · next hA =>
    split at h
    · exact absurd h (by simp)
    · refine ⟨(Except.ok.inj h).symm, ?_⟩
      simp only [Bool.not_eq_true, List.all_eq_false, bne_iff_ne, ne_eq, not_not] at hA
      exact hA

theorem upgrade_eq_ok (db : Schema)
    (h1 : ∃ t ∈ db, t.name = "user") (h2 : UserLacksNewCols db) :
    upgrade db = .ok (db.map addBoth) := by
  have e1 := addColumn_ok db "user" aboutMeColumn h1
    (fun t ht htn c2 hc2 => (h2 t ht htn c2 hc2).1)
  have h1b : ∃ t ∈ db.map (addColTable "user" aboutMeColumn), t.name = "user" := by
    obtain ⟨t0, ht0, hn0⟩ := h1
    exact ⟨addColTable "user" aboutMeColumn t0, List.mem_map_of_mem _ ht0,
      by rw [addColTable_name]; exact hn0⟩
  have h2b : ∀ t ∈ db.map (addColTable "user" aboutMeColumn), t.name = "user" →
      ∀ c2 ∈ t.cols, c2.name ≠ lastSeenColumn.name := by
    intro t2 ht2 htn2 c2 hc2
    obtain ⟨t, ht, rfl⟩ := List.mem_map.mp ht2
    rw [addColTable_name] at htn2
    unfold addColTable at hc2
    rw [if_pos htn2] at hc2
    rcases List.mem_append.mp hc2 with hmem | hmem
    · exact (h2 t ht htn2 c2 hmem).2
    · simp only [List.mem_singleton] at hmem
      subst hmem
      decide
  have e2 := addColumn_ok _ "user" lastSeenColumn h1b h2b
  show runOps db upgradeOps = _
  simp only [upgradeOps, runOps, runOp, e1, Except.bind, e2, List.map_map]
  have hcomp : addColTable "user" lastSeenColumn ∘ addColTable "user" aboutMeColumn = addBoth := by
    funext t
    obtain ⟨tn, tc⟩ := t
    by_cases h : tn = "user"
    · subst h
      simp [Function.comp_apply, addColTable, addBoth, List.append_assoc]
    · simp [Function.comp_apply, addColTable, addBoth, h]
  rw [hcomp]

theorem upgrade_ok_inv {db db' : Schema} (h : upgrade db = .ok db') :
    db' = (db.map (addColTable "user" aboutMeColumn)).map
        (addColTable "user" lastSeenColumn) ∧
    ∃ t ∈ db, t.name = "user" := by
  simp only [upgrade, upgradeOps, runOps, runOp] at h
  cases e1 : addColumn db "user" aboutMeColumn with
  | error e => rw [e1] at h; exact absurd h (by simp [Except.bind])
  | ok m1 =>
    rw [e1] at h
    simp only [Except.bind] at h
    cases e2 : addColumn m1 "user" lastSeenColumn with
    | error e => rw [e2] at h; exact absurd h (by simp)
    | ok m2 =>
      rw [e2] at h
      simp only [Except.ok.injEq] at h
      obtain ⟨hm1, hex⟩ := addColumn_ok_inv e1
      obtain ⟨hm2, -⟩ := addColumn_ok_inv e2
      subst hm1 hm2 h
      exact ⟨rfl, hex⟩

theorem downgrade_ok_inv {db db' : Schema} (h : downgrade db = .ok db') :
    db' = (db.map (dropColTable "user" "last_seen")).map
        (dropColTable "user" "about_me") := by
  simp only [downgrade, downgradeOps, runOps, runOp] at h
  cases e1 : dropColumn db "user" "last_seen" with
  | error e => rw [e1] at h; exact absurd h (by simp [Except.bind])
  | ok m1 =>
    rw [e1] at h
    simp only [Except.bind] at h
    cases e2 : dropColumn m1 "user" "about_me" with
    | error e => rw [e2] at h; exact absurd h (by simp)
    | ok m2 =>
      rw [e2] at h
      simp only [Except.ok.injEq] at h
      obtain ⟨hm1, -⟩ := dropColumn_ok_inv e1
      obtain ⟨hm2, -⟩ := dropColumn_ok_inv e2
      subst hm1 hm2 h
      rfl

theorem downgrade_after_upgrade (db : Schema)
    (h1 : ∃ t ∈ db, t.name = "user") (h2 : UserLacksNewCols db) :
    downgrade (db.map addBoth) = .ok db := by
  have h1b : ∃ t ∈ db.map addBoth, t.name = "user" := by
    obtain ⟨t0, ht0, hn0⟩ := h1
    exact ⟨addBoth t0, List.mem_map_of_mem _ ht0, by rw [addBoth_name]; exact hn0⟩
  have hd1 := dropColumn_ok (db.map addBoth) "user" "last_seen" h1b ?hasL
  case hasL =>
    intro t2 ht2 htn2
    obtain ⟨t, ht, rfl⟩ := List.mem_map.mp ht2
    rw [addBoth_name] at htn2
    unfold addBoth
    rw [if_pos htn2]
    exact ⟨lastSeenColumn, by simp, rfl⟩
  rw [List.map_map] at hd1
  have h1c : ∃ t ∈ db.map (dropColTable "user" "last_seen" ∘ addBoth), t.name = "user" := by
    obtain ⟨t0, ht0, hn0⟩ := h1
    exact ⟨_, List.mem_map_of_mem _ ht0,
      by simp only [Function.comp_apply, dropColTable_name, addBoth_name]; exact hn0⟩
  have hd2 := dropColumn_ok (db.map (dropColTable "user" "last_seen" ∘ addBoth))
      "user" "about_me" h1c ?hasA
  case hasA =>
    intro t2 ht2 htn2
    obtain ⟨t, ht, rfl⟩ := List.mem_map.mp ht2
    simp only [Function.comp_apply, dropColTable_name, addBoth_name] at htn2
    refine ⟨aboutMeColumn, ?_, rfl⟩
    simp only [Function.comp_apply, dropColTable, addBoth, htn2, reduceIte]
    exact List.mem_filter.mpr ⟨by simp, by decide⟩
  rw [List.map_map] at hd2
  show runOps (db.map addBoth) downgradeOps = _
  simp only [downgradeOps, runOps, runOp, hd1, Except.bind, hd2]
  congr 1
  have hpt : ∀ t ∈ db,
      (dropColTable "user" "about_me" ∘ dropColTable "user" "last_seen" ∘ addBoth) t = t := by
    intro t ht
    obtain ⟨tn, tc⟩ := t
    by_cases h : tn = "user"
    · subst h
      have hkeepL : tc.filter (fun c2 => c2.name != "last_seen") = tc :=
        List.filter_eq_self.mpr (fun c hc => by
          simpa [bne_iff_ne] using (h2 ⟨"user", tc⟩ ht rfl c hc).2)
      have hkeepA : tc.filter (fun c2 => c2.name != "about_me") = tc :=
        List.filter_eq_self.mpr (fun c hc => by
          simpa [bne_iff_ne] using (h2 ⟨"user", tc⟩ ht rfl c hc).1)
      have hfl : List.filter (fun c2 => c2.name != "last_seen")
          [aboutMeColumn, lastSeenColumn] = [aboutMeColumn] := by decide
      have hfa : List.filter (fun c2 => c2.name != "about_me") [aboutMeColumn] = [] := by decide
      simp [Function.comp_apply, addBoth, dropColTable, List.filter_append,
        hkeepL, hkeepA, hfl, hfa]
    · simp [Function.comp_apply, addBoth, dropColTable, h]
  rw [List.map_congr_left hpt]
  exact List.map_id' db

end Microblog

namespace Microblog

theorem hexVal_hexDigitChar : ∀ n < 16, hexVal (hexDigitChar n) = n := by decide

theorem isLowerHexDigit_hexDigitChar : ∀ n < 16, isLowerHexDigit (hexDigitChar n) = true := by
  decide

theorem tokenHex_cons_data (b : Nat) (bs : List Nat) :
    (tokenHex (b :: bs)).data
      = hexDigitChar (b / 16) :: hexDigitChar (b % 16) :: (tokenHex bs).data := rfl

theorem tokenHex_length (bytes : List Nat) : (tokenHex bytes).length = 2 * bytes.length := by
  induction bytes with
  | nil => rfl
  | cons b bs ih =>
    show (tokenHex (b :: bs)).data.length = 2 * (b :: bs).length
    rw [tokenHex_cons_data]
    have ih2 : (tokenHex bs).data.length = 2 * bs.length := ih
    simp only [List.length_cons, ih2]
    omega

theorem tokenHex_chars (bytes : List Nat) (h : ∀ b ∈ bytes, b < 256) :
    ∀ c ∈ (tokenHex bytes).data, isLowerHexDigit c = true := by
  induction bytes with
  | nil => intro c hc; cases hc
  | cons b bs ih =>
    intro c hc
    have hb : b < 256 := h b (List.mem_cons_self b bs)
    rw [tokenHex_cons_data] at hc
    rcases List.mem_cons.mp hc with rfl | hc2
    · exact isLowerHexDigit_hexDigitChar _ (by omega)
    rcases List.mem_cons.mp hc2 with rfl | hc3
    · exact isLowerHexDigit_hexDigitChar _ (by omega)
    · exact ih (fun x hx => h x (List.mem_cons_of_mem b hx)) c hc3

theorem hexDecode_tokenHex (bytes : List Nat) (h : ∀ b ∈ bytes, b < 256) :
    hexDecode (tokenHex bytes).data = bytes := by
  induction bytes with
  | nil => rfl
  | cons b bs ih =>
    have hb : b < 256 := h b (List.mem_cons_self b bs)
    rw [tokenHex_cons_data]
    show (hexVal (hexDigitChar (b / 16)) * 16 + hexVal (hexDigitChar (b % 16)))
        :: hexDecode (tokenHex bs).data = b :: bs
    rw [hexVal_hexDigitChar _ (by omega), hexVal_hexDigitChar _ (by omega),
      ih (fun x hx => h x (List.mem_cons_of_mem b hx))]
    congr 1
    omega

theorem tokenHex_inj {b1 b2 : List Nat} (h1 : ∀ b ∈ b1, b < 256) (h2 : ∀ b ∈ b2, b < 256)
    (he : tokenHex b1 = tokenHex b2) : b1 = b2 := by
  have hcong := congrArg (fun s => hexDecode s.data) he
  simp only at hcong
  rwa [hexDecode_tokenHex b1 h1, hexDecode_tokenHex b2 h2] at hcong

theorem run_eq_self (a : App) (paths : List String) : run a paths = a := by
  induction paths generalizing a with
  | nil => rfl
  | cons p ps ih => exact ih a

end Microblog

namespace Microblog

/-- C1: every GET request to path / and every GET request to path /index
is answered by the route handler with HTTP status 200 and an HTML body
that contains the exact substring José A. -/
theorem index_routes_ok :
    dispatch "/" = some (200, index) ∧
    dispatch "/index" = some (200, index) ∧
    ContainsSubstr index "José A." := by
  refine ⟨rfl, rfl,
    "\n<html>\n    <head>\n        <title>Home Page - Microblog</title>\n    </head>\n    <body>\n        <h1>Hello, ",
    "!</h1>\n    </body>\n</html>", ?_⟩
  decide

/-- C2: on a database whose user table lacks both columns, upgrade adds
exactly two columns to the user table, about_me (string of maximum
length 140, nullable) first and last_seen (timestamp, nullable) second,
and changes nothing else. -/
theorem upgrade_adds_two_columns (db : Schema)
    (h1 : ∃ t ∈ db, t.name = "user") (h2 : UserLacksNewCols db) :
    upgrade db = .ok (db.map fun t =>
      if t.name = "user" then
        { t with cols := t.cols ++
            [⟨"about_me", ColType.string 140, true⟩, ⟨"last_seen", ColType.datetime, true⟩] }
      else t) :=
  upgrade_eq_ok db h1 h2

theorem upgrade_adds_two_columns_witness :
    (∃ t ∈ demoDb, t.name = "user") ∧ UserLacksNewCols demoDb ∧
    upgrade demoDb = .ok (demoDb.map fun t =>
      if t.name = "user" then
        { t with cols := t.cols ++
            [⟨"about_me", ColType.string 140, true⟩, ⟨"last_seen", ColType.datetime, true⟩] }
      else t) :=
  ⟨by decide, by unfold UserLacksNewCols; decide,
    upgrade_adds_two_columns demoDb (by decide) (by unfold UserLacksNewCols; decide)⟩

/-- C3: downgrade drops last_seen first and then about_me, the exact
reverse of the order in which upgrade adds the columns. -/
theorem downgrade_reverse_order :
    downgradeOps = [.dropCol "user" "last_seen", .dropCol "user" "about_me"] ∧
    upgradeOps = [.addCol "user" aboutMeColumn, .addCol "user" lastSeenColumn] ∧
    downgradeOps = (upgradeOps.map dropOf).reverse :=
  ⟨rfl, rfl, by decide⟩

/-- C4: for every schema containing a user table that lacks both new
columns, running downgrade right after upgrade returns the schema to
exactly its prior state. -/
theorem upgrade_downgrade_roundtrip (db : Schema)
    (h1 : ∃ t ∈ db, t.name = "user") (h2 : UserLacksNewCols db) :
    (upgrade db).bind downgrade = .ok db := by
  rw [upgrade_eq_ok db h1 h2]
  exact downgrade_after_upgrade db h1 h2

theorem upgrade_downgrade_roundtrip_witness :
    (∃ t ∈ demoDb, t.name = "user") ∧ UserLacksNewCols demoDb ∧
    (upgrade demoDb).bind downgrade = .ok demoDb :=
  ⟨by decide, by unfold UserLacksNewCols; decide,
    upgrade_downgrade_roundtrip demoDb (by decide) (by unfold UserLacksNewCols; decide)⟩

/-- C5: when the environment variable SECRET_KEY holds a non-empty
string v at configuration construction, the resolved secret key is
exactly v. -/
theorem secret_key_env_override (v : String) (randomBytes : List Nat) (h : v ≠ "") :
    configSecretKey (some v) randomBytes = v := by
  simp [configSecretKey, h]

theorem secret_key_env_override_witness :
    ("abc123" : String) ≠ "" ∧ configSecretKey (some "abc123") [] = "abc123" :=
  ⟨by decide, secret_key_env_override "abc123" [] (by decide)⟩

/-- C6: with SECRET_KEY absent or empty, the resolved secret key is the
64-character lowercase hexadecimal encoding of the 32 freshly drawn
random bytes, and two configurations built from distinct random draws
resolve to different keys. -/
theorem secret_key_fallback_hex (env1 env2 : Option String) (bs1 bs2 : List Nat)
    (he1 : env1 = none ∨ env1 = some "") (he2 : env2 = none ∨ env2 = some "")
    (hv1 : ValidRandomBytes bs1) (hv2 : ValidRandomBytes bs2) (hne : bs1 ≠ bs2) :
    configSecretKey env1 bs1 = tokenHex bs1 ∧
    (configSecretKey env1 bs1).length = 64 ∧
    (∀ c ∈ (configSecretKey env1 bs1).data, isLowerHexDigit c = true) ∧
    configSecretKey env1 bs1 ≠ configSecretKey env2 bs2 := by
  obtain ⟨hl1, hb1⟩ := hv1
  obtain ⟨hl2, hb2⟩ := hv2
  have k1 : configSecretKey env1 bs1 = tokenHex bs1 := by
    rcases he1 with rfl | rfl <;> simp [configSecretKey]
  have k2 : configSecretKey env2 bs2 = tokenHex bs2 := by
    rcases he2 with rfl | rfl <;> simp [configSecretKey]
  refine ⟨k1, ?_, ?_, ?_⟩
  · rw [k1, tokenHex_length, hl1]
  · rw [k1]; exact tokenHex_chars bs1 hb1
  · rw [k1, k2]
    intro hcon
    exact hne (tokenHex_inj hb1 hb2 hcon)

theorem secret_key_fallback_hex_witness :
    ValidRandomBytes (List.replicate 32 0) ∧ ValidRandomBytes (List.replicate 32 255) ∧
    (List.replicate 32 (0 : Nat)) ≠ List.replicate 32 255 ∧
    configSecretKey none (List.replicate 32 0) = tokenHex (List.replicate 32 0) ∧
    (configSecretKey none (List.replicate 32 0)).length = 64 ∧
    (∀ c ∈ (configSecretKey none (List.replicate 32 0)).data, isLowerHexDigit c = true) ∧
    configSecretKey none (List.replicate 32 0) ≠ configSecretKey none (List.replicate 32 255) := by
  have h := secret_key_fallback_hex none none (List.replicate 32 0) (List.replicate 32 255)
    (Or.inl rfl) (Or.inl rfl) (by unfold ValidRandomBytes; decide)
    (by unfold ValidRandomBytes; decide) (by decide)
  exact ⟨by unfold ValidRandomBytes; decide, by unfold ValidRandomBytes; decide,
    by decide, h.1, h.2.1, h.2.2.1, h.2.2.2⟩

/-- C7: running upgrade a second time without an intervening downgrade
fails with a duplicate-column database error, which the script does not
catch and which propagates to the caller. -/
theorem upgrade_twice_duplicate_error (db db' : Schema) (h : upgrade db = .ok db') :
    upgrade db' = .error ("duplicate column name: about_me") := by
  obtain ⟨rfl, t0, ht0, hn0⟩ := upgrade_ok_inv h
  have ht2 : addColTable "user" lastSeenColumn (addColTable "user" aboutMeColumn t0) ∈
      (db.map (addColTable "user" aboutMeColumn)).map (addColTable "user" lastSeenColumn) :=
    List.mem_map_of_mem _ (List.mem_map_of_mem _ ht0)
  have htn2 : (addColTable "user" lastSeenColumn (addColTable "user" aboutMeColumn t0)).name
      = "user" := by
    rw [addColTable_name, addColTable_name]; exact hn0
  have hcols : aboutMeColumn ∈
      (addColTable "user" lastSeenColumn (addColTable "user" aboutMeColumn t0)).cols := by
    simp [addColTable, hn0]
  set D := (db.map (addColTable "user" aboutMeColumn)).map (addColTable "user" lastSeenColumn)
    with hD
  have hA : (D.all (fun t => t.name != "user")) = false := by
    rw [List.all_eq_false]
    exact ⟨_, ht2, by simp [htn2]⟩
  have hB : (D.any (fun t => t.name == "user" &&
      t.cols.any (fun c2 => c2.name == aboutMeColumn.name))) = true := by
    rw [List.any_eq_true]
    refine ⟨_, ht2, ?_⟩
    rw [Bool.and_eq_true]
    exact ⟨by simp [htn2], List.any_eq_true.mpr ⟨aboutMeColumn, hcols, by simp⟩⟩
  have e1 : addColumn D "user" aboutMeColumn = .error ("duplicate column name: about_me") := by
    unfold addColumn
    rw [if_neg (by simp [hA]), if_pos hB]
    exact congrArg Except.error (by decide)
  show runOps D upgradeOps = _
  simp only [upgradeOps, runOps, runOp, e1, Except.bind]

theorem upgrade_twice_duplicate_error_witness :
    upgrade demoDb = .ok demoUpgraded ∧
    upgrade demoUpgraded = .error ("duplicate column name: about_me") :=
  ⟨rfl, upgrade_twice_duplicate_error demoDb demoUpgraded rfl⟩

/-- C8: the secret key is resolved once when the configuration object
is constructed and no operation of the program mutates it: after any
sequence of handled requests the configuration, and hence every read of
the secret key, is exactly the one built at construction. -/
theorem secret_key_generated_once (env : Option String) (bs : List Nat) (paths : List String) :
    (run (mkApp (mkConfig env bs)) paths).config = mkConfig env bs ∧
    (run (mkApp (mkConfig env bs)) paths).config.secretKey = configSecretKey env bs := by
  rw [run_eq_self]
  exact ⟨rfl, rfl⟩

/-- C9: the index handler takes no request inputs and reads no mutable
state: dispatched from / or /index in any application state it leaves
the state unchanged and returns the one fixed page, titled Home Page -
Microblog with body greeting Hello, José A.!, so any two runs produce
identical output. -/
theorem index_handler_constant :
    (∀ a : App, handle a "/" = (some (200, index), a)) ∧
    (∀ a : App, handle a "/index" = (some (200, index), a)) ∧
    (∀ (a1 a2 : App) (p : String), (handle a1 p).1 = (handle a2 p).1) ∧
    ContainsSubstr index "<title>Home Page - Microblog</title>" ∧
    ContainsSubstr index "Hello, José A.!" := by
  refine ⟨fun a => rfl, fun a => rfl, fun a1 a2 p => rfl, ?_, ?_⟩
  · exact ⟨"\n<html>\n    <head>\n        ",
      "\n    </head>\n    <body>\n        <h1>Hello, José A.!</h1>\n    </body>\n</html>",
      by decide⟩
  · exact ⟨"\n<html>\n    <head>\n        <title>Home Page - Microblog</title>\n    </head>\n    <body>\n        <h1>",
      "</h1>\n    </body>\n</html>", by decide⟩

/-- C10: a successful upgrade or downgrade touches only the about_me
and last_seen columns of the user table: projecting those two columns
away, the schema before and after the operation is identical, table by
table and column by column. -/
theorem migration_frame (db db' : Schema)
    (h : upgrade db = .ok db' ∨ downgrade db = .ok db') :
    db'.map frameView = db.map frameView := by
  rcases h with h | h
  · obtain ⟨rfl, -⟩ := upgrade_ok_inv h
    rw [List.map_map, List.map_map]
    have hfun : (frameView ∘ addColTable "user" lastSeenColumn) ∘ addColTable "user" aboutMeColumn
        = frameView := by
      funext t
      obtain ⟨tn, tc⟩ := t
      by_cases hname : tn = "user"
      · subst hname
        have hf2 : List.filter (fun c => c.name != "about_me" && c.name != "last_seen")
            [aboutMeColumn, lastSeenColumn] = [] := by decide
        simp [Function.comp_apply, frameView, addColTable, List.append_assoc,
          List.filter_append, hf2]
      · simp [Function.comp_apply, frameView, addColTable, hname]
    rw [hfun]
  · obtain rfl := downgrade_ok_inv h
    rw [List.map_map, List.map_map]
    have hfun : (frameView ∘ dropColTable "user" "about_me") ∘ dropColTable "user" "last_seen"
        = frameView := by
      funext t
      obtain ⟨tn, tc⟩ := t
      by_cases hname : tn = "user"
      · subst hname
        simp only [Function.comp_apply, dropColTable, frameView, reduceIte]
        rw [List.filter_filter, List.filter_filter]
        congr 1
        apply List.filter_congr
        intro c _
        cases hx : c.name == "about_me" <;> cases hy : c.name == "last_seen" <;>
          simp [bne, hx, hy]
      · simp [Function.comp_apply, dropColTable, frameView, hname]
    rw [hfun]

theorem migration_frame_witness :
    (upgrade demoDb = .ok demoUpgraded ∨ downgrade demoDb = .ok demoUpgraded) ∧
    demoUpgraded.map frameView = demoDb.map frameView :=
  ⟨Or.inl rfl, migration_frame demoDb demoUpgraded (Or.inl rfl)⟩

end Microblog
